import Mathlib

/-!
Shallow embedding of the federated search-result aggregation and ranking
engine of the CreatorDiscovery repository, together with theorems checking
the natural-language specification against it.

Sources embedded:
* `src/src/app/creator-brand-match/page.tsx` — `getMatchLevel`,
  `getMatchLevelPriority`, `combineSearchResults`, `handleFindMatches`.
* `src/src/app/semantic-search/page.tsx` — `loadMoreResults` (merge /
  dedup / pagination state), `handleTextSearch`, `fetchVideoDetailsForResults`
  (format derivation), `filteredResults`.

JavaScript numbers are modelled as exact rationals (`ℚ`); the scores and
dimensions in every claim are exact decimal values for which rational
arithmetic agrees with IEEE semantics of the comparisons involved.
JavaScript string truthiness (`if (videoId)`) is modelled explicitly:
`undefined`/`null` become `Option.none` and the empty string is falsy.
`Array.prototype.sort` with a comparator is, per the ECMAScript spec, a
stable sort; a stable sort by a total preorder has a unique result, so it
is embedded as `List.insertionSort` by the corresponding total relation.
-/

/-! ### Cross-modal combiner (creator-brand-match/page.tsx) -/

/-- Origin tag written into `originalSource` by `combineSearchResults`. -/
inductive OriginSource where
  | TEXT
  | VIDEO
  | BOTH
deriving DecidableEq, Repr

/-- Portion of the result metadata read by `combineSearchResults`
(`result.metadata?.tl_video_id`); the id itself may be absent. -/
structure Metadata where
  tl_video_id : Option String
deriving DecidableEq, Repr

/-- Embedding of `EmbeddingSearchResult` restricted to the fields the
combiner reads or writes: `score`, `metadata`, `textScore`, `videoScore`,
`originalSource` (the optional fields are absent before tagging). -/
structure EmbeddingSearchResult where
  score : ℚ
  metadata : Option Metadata
  textScore : Option ℚ
  videoScore : Option ℚ
  originalSource : Option OriginSource
deriving DecidableEq, Repr

/-- Match level returned by `getMatchLevel`. -/
inductive MatchLevel where
  | High
  | Medium
  | Low
deriving DecidableEq, Repr

/-- Embedding of `getMatchLevel(score, source)`: `BOTH` is always `High`;
otherwise `score >= 1 → High`, `score >= 0.5 → Medium`, else `Low`. -/
def getMatchLevel (score : ℚ) (source : Option OriginSource) : MatchLevel :=
  if source = some OriginSource.BOTH then MatchLevel.High
  else if score ≥ 1 then MatchLevel.High
  else if score ≥ 0.5 then MatchLevel.Medium
  else MatchLevel.Low

/-- Embedding of `getMatchLevelPriority`: High=3, Medium=2, Low=1. -/
def getMatchLevelPriority (level : MatchLevel) : ℕ :=
  match level with
  | MatchLevel.High => 3
  | MatchLevel.Medium => 2
  | MatchLevel.Low => 1

/-- JavaScript `x || d` on an optional number: `undefined` and `0` are
falsy and give the default. -/
def jsOr (x : Option ℚ) (d : ℚ) : ℚ :=
  match x with
  | some q => if q = 0 then d else q
  | none => d

/-- Evaluation of `result.metadata?.tl_video_id`. -/
def getVideoId (r : EmbeddingSearchResult) : Option String :=
  r.metadata.bind Metadata.tl_video_id

/-- Evaluation of `result.metadata?.tl_video_id` followed by the JS
truthiness test `if (videoId)`: an absent or empty id yields `none`. -/
def truthyVideoId (r : EmbeddingSearchResult) : Option String :=
  match getVideoId r with
  | some s => if s.isEmpty then none else some s
  | none => none

/-- Key lookup in the insertion-ordered map (`Map.get` on a JS `Map`
modelled as an association list in insertion order). -/
def mapGet (m : List (String × EmbeddingSearchResult)) (k : String) :
    Option EmbeddingSearchResult :=
  (m.find? (fun p => p.1 = k)).map Prod.snd

/-- Key membership in the insertion-ordered map (`Map.has`). -/
def containsKey (m : List (String × EmbeddingSearchResult)) (k : String) : Bool :=
  m.any (fun p => p.1 = k)

/-- Embedding of `Map.set`: an existing key keeps its position and gets the
new value; a fresh key is appended at the end (JS `Map` insertion order). -/
def mapSet (m : List (String × EmbeddingSearchResult)) (k : String)
    (v : EmbeddingSearchResult) : List (String × EmbeddingSearchResult) :=
  if containsKey m k then
    m.map (fun p => if p.1 = k then (k, v) else p)
  else
    m ++ [(k, v)]

/-- Record written for a text result:
`{ ...result, textScore: result.score, originalSource: "TEXT" }`. -/
def tagText (result : EmbeddingSearchResult) : EmbeddingSearchResult :=
  { result with textScore := some result.score,
                originalSource := some OriginSource.TEXT }

/-- Record written for a video-only result:
`{ ...result, videoScore: result.score, originalSource: "VIDEO" }`. -/
def tagVideo (result : EmbeddingSearchResult) : EmbeddingSearchResult :=
  { result with videoScore := some result.score,
                originalSource := some OriginSource.VIDEO }

/-- Record written when a video result's id is already in the map: the
existing entry is kept, its score becomes
`max(existing.textScore || 0, result.score) * 1.15` and the origin becomes
`BOTH`. -/
def mergeBoth (existingResult result : EmbeddingSearchResult) :
    EmbeddingSearchResult :=
  let textScore := jsOr existingResult.textScore 0
  let videoScore := result.score
  let maxScore := max textScore videoScore
  let boostedScore := maxScore * 1.15
  { existingResult with score := boostedScore,
                        videoScore := some videoScore,
                        textScore := some textScore,
                        originalSource := some OriginSource.BOTH }

/-- Body of the `textResults.forEach` loop of `combineSearchResults`. -/
def processTextResult (m : List (String × EmbeddingSearchResult))
    (result : EmbeddingSearchResult) : List (String × EmbeddingSearchResult) :=
  match truthyVideoId result with
  | some videoId => mapSet m videoId (tagText result)
  | none => m

/-- Body of the `videoResults.forEach` loop of `combineSearchResults`. -/
def processVideoResult (m : List (String × EmbeddingSearchResult))
    (result : EmbeddingSearchResult) : List (String × EmbeddingSearchResult) :=
  match truthyVideoId result with
  | none => m
  | some videoId =>
    match mapGet m videoId with
    | some existingResult => mapSet m videoId (mergeBoth existingResult result)
    | none => mapSet m videoId (tagVideo result)

/-- Insertion-ordered map built by the two `forEach` loops of
`combineSearchResults` before the final sort. -/
def combineMap (textResults videoResults : List EmbeddingSearchResult) :
    List (String × EmbeddingSearchResult) :=
  videoResults.foldl processVideoResult (textResults.foldl processTextResult [])

/-- Comparator of the final sort of `combineSearchResults`, as the relation
"sorts no later than": match-level priority descending, then score
descending. `matchLe a b` holds iff the JS comparator returns a
non-positive value on `(a, b)`. -/
def matchLe (a b : EmbeddingSearchResult) : Bool :=
  let levelPriorityA := getMatchLevelPriority (getMatchLevel a.score a.originalSource)
  let levelPriorityB := getMatchLevelPriority (getMatchLevel b.score b.originalSource)
  if levelPriorityA = levelPriorityB then decide (b.score ≤ a.score)
  else decide (levelPriorityB < levelPriorityA)

/-- Propositional form of `matchLe`. -/
def matchRel (a b : EmbeddingSearchResult) : Prop :=
  matchLe a b = true

instance : DecidableRel matchRel := fun a b =>
  inferInstanceAs (Decidable (matchLe a b = true))

instance : IsTotal EmbeddingSearchResult matchRel where
  total a b := by
    unfold matchRel matchLe
    by_cases h : getMatchLevelPriority (getMatchLevel a.score a.originalSource) =
        getMatchLevelPriority (getMatchLevel b.score b.originalSource)
    · simp only [h, if_pos rfl, if_true]
      rcases le_total a.score b.score with h' | h'
      · exact Or.inr (by simpa using h')
      · exact Or.inl (by simpa using h')
    · simp only [if_neg h, if_neg (Ne.symm h)]
      rcases lt_or_gt_of_ne h with h' | h'
      · exact Or.inr (by simpa using h')
      · exact Or.inl (by simpa using h')

instance : IsTrans EmbeddingSearchResult matchRel where
  trans a b c hab hbc := by
    unfold matchRel matchLe at hab hbc ⊢
    by_cases h1 : getMatchLevelPriority (getMatchLevel a.score a.originalSource) =
        getMatchLevelPriority (getMatchLevel b.score b.originalSource)
    · by_cases h2 : getMatchLevelPriority (getMatchLevel b.score b.originalSource) =
          getMatchLevelPriority (getMatchLevel c.score c.originalSource)
      · rw [if_pos h1] at hab
        rw [if_pos h2] at hbc
        rw [if_pos (h1.trans h2)]
        exact decide_eq_true (le_trans (of_decide_eq_true hbc) (of_decide_eq_true hab))
      · rw [if_pos h1] at hab
        rw [if_neg h2] at hbc
        rw [if_neg (fun h => h2 (h1.symm.trans h))]
        have hcb := of_decide_eq_true hbc
        rw [← h1] at hcb
        exact decide_eq_true hcb
    · by_cases h2 : getMatchLevelPriority (getMatchLevel b.score b.originalSource) =
          getMatchLevelPriority (getMatchLevel c.score c.originalSource)
      · rw [if_neg h1] at hab
        rw [if_neg (fun h => h1 (h.trans h2.symm))]
        have hba := of_decide_eq_true hab
        rw [h2] at hba
        exact decide_eq_true hba
      · rw [if_neg h1] at hab
        rw [if_neg h2] at hbc
        have hca := lt_trans (of_decide_eq_true hbc) (of_decide_eq_true hab)
        rw [if_neg hca.ne']
        exact decide_eq_true hca

/-- Embedding of `combineSearchResults(textResults, videoResults)`: build
the map by the two loops, take its values in insertion order, and apply the
final stable sort. -/
def combineSearchResults (textResults videoResults : List EmbeddingSearchResult) :
    List EmbeddingSearchResult :=
  List.insertionSort matchRel ((combineMap textResults videoResults).map Prod.snd)

/-- Embedding of the `ReadinessState` returned by
`checkAndEnsureEmbeddings` (only its fields are consumed in `src/`). -/
structure ReadinessState where
  processedCount : ℤ
  totalCount : ℤ
  success : Bool
deriving DecidableEq, Repr

/-- Observable outcome of one `handleFindMatches` run: whether the two
similarity searches were issued, whether the combiner ran, and the final
`similarResults` state. -/
structure MatchOutcome where
  searchesInvoked : Bool
  combinerInvoked : Bool
  similarResults : List EmbeddingSearchResult
deriving DecidableEq, Repr

/-- Embedding of the control flow of `handleFindMatches` after the
readiness check: `setSimilarResults([])` runs first; on
`embeddingResult.success == false` the function returns early, so the two
searches and `combineSearchResults` never run and the match list stays
empty; otherwise both searches run and their results are combined. -/
def handleFindMatches (embeddingResult : ReadinessState)
    (textResults videoResults : List EmbeddingSearchResult) : MatchOutcome :=
  if embeddingResult.success then
    { searchesInvoked := true,
      combinerInvoked := true,
      similarResults := combineSearchResults textResults videoResults }
  else
    { searchesInvoked := false,
      combinerInvoked := false,
      similarResults := [] }

/-! ### Federated search session (semantic-search/page.tsx) -/

/-- Derived orientation facet of a hit. -/
inductive Format where
  | horizontal
  | vertical
deriving DecidableEq, Repr

/-- Portion of `system_metadata` read for format derivation
(`videoDetails.system_metadata?.width` / `.height`); either dimension may
be absent. -/
structure SystemMetadata where
  width : Option ℚ
  height : Option ℚ
deriving DecidableEq, Repr

/-- Embedding of the per-video details restricted to the fields the search
page consumes for format derivation; `system_metadata` itself may be
absent. -/
structure VideoDetails where
  system_metadata : Option SystemMetadata
deriving DecidableEq, Repr

/-- Embedding of `SearchResult` (semantic-search page). -/
structure SearchResult where
  video_id : String
  start : ℚ
  «end» : ℚ
  confidence : String
  score : ℚ
  index_id : String
  videoDetails : Option VideoDetails
  format : Option Format
deriving DecidableEq, Repr

/-- Identity key used for deduplication: the string
`` `${item.video_id}_${item.start}_${item.end}` `` determines and is
determined by this triple (decimal renderings of numbers contain no
underscore, so the encoding is injective). -/
def hitKey (r : SearchResult) : String × ℚ × ℚ :=
  (r.video_id, r.start, r.«end»)

/-- Embedding of the merge step inside `setEnhancedResults` of
`loadMoreResults`: build the identity-key set of the existing results and
append, in order, each incoming hit whose key is not already present.
Duplicates inside the incoming batch are not checked against each other. -/
def mergeResults (prev newResultsWithDetails : List SearchResult) :
    List SearchResult :=
  prev ++ newResultsWithDetails.filter
    (fun item => !(prev.map hitKey).contains (hitKey item))

/-- Format derivation inside `fetchVideoDetailsForResults`: the guard is JS
truthiness of `system_metadata?.width` and `?.height` (absent or zero
dimensions leave `format` undefined); otherwise
`width >= height ? "horizontal" : "vertical"`. -/
def deriveFormat (videoDetails : VideoDetails) : Option Format :=
  match videoDetails.system_metadata.bind SystemMetadata.width,
        videoDetails.system_metadata.bind SystemMetadata.height with
  | some w, some h =>
    if w ≠ 0 ∧ h ≠ 0 then
      if w ≥ h then some Format.horizontal else some Format.vertical
    else none
  | _, _ => none

/-- Per-result body of `fetchVideoDetailsForResults`; `fetchDetails` is the
external detail-fetch collaborator, `none` modelling a failed fetch, in
which case the hit is returned unchanged. -/
def enrichResult (fetchDetails : String → String → Option VideoDetails)
    (result : SearchResult) : SearchResult :=
  match fetchDetails result.video_id result.index_id with
  | none => result
  | some videoDetails =>
    { result with videoDetails := some videoDetails,
                  format := deriveFormat videoDetails }

/-- Embedding of `fetchVideoDetailsForResults` (the returned list). -/
def fetchVideoDetailsForResults (fetchDetails : String → String → Option VideoDetails)
    (results : List SearchResult) : List SearchResult :=
  results.map (enrichResult fetchDetails)

/-- Per-partition continuation-token table (`nextPageTokens`): the two
partitions observed are the brand and creator indices; `none` models
`null`/absent. -/
structure TokenTable where
  brand : Option String
  creator : Option String
deriving DecidableEq, Repr

/-- JS truthiness of an optional string token (`if (brandToken)`). -/
def jsTruthyStr (x : Option String) : Bool :=
  match x with
  | some s => !s.isEmpty
  | none => false

/-- Evaluation of `token || null`: a falsy token is stored as `null`. -/
def tokenOrNull (x : Option String) : Option String :=
  match x with
  | some s => if s.isEmpty then none else some s
  | none => none

/-- Test of `Object.values(newTokens).some((token) => token !== null)`. -/
def someTokenNonNull (t : TokenTable) : Bool :=
  t.brand.isSome || t.creator.isSome

/-- Pagination/aggregation state of the search session relevant to the
claims: the aggregated results, the token table, and the `hasMoreResults`
flag. -/
structure SessionState where
  enhancedResults : List SearchResult
  nextPageTokens : TokenTable
  hasMoreResults : Bool
deriving DecidableEq, Repr

/-- Body of the initial text-search response as consumed by
`handleTextSearch` when `response.data && response.data.data` holds:
the hit list, the optional `nextPageTokens` table and the optional
server-side `hasMore` flag. -/
structure TextSearchResponse where
  results : List SearchResult
  nextPageTokens : Option TokenTable
  hasMore : Option Bool
deriving DecidableEq, Repr

/-- Embedding of the state update of `handleTextSearch` on a successful
response: results are stored, tokens come from
`response.data.nextPageTokens || {}`, and `hasMoreResults` is the server's
`hasMore` when defined, else the client heuristic
`allResults.length >= itemsPerPage && (brandResults.length === itemsPerPage
|| creatorResults.length === itemsPerPage)` with `itemsPerPage = 24`. -/
def handleTextSearch (brandIndexId creatorIndexId : String)
    (resp : TextSearchResponse) : SessionState :=
  let allResults := resp.results
  let brandResults := allResults.filter (fun r => r.index_id = brandIndexId)
  let creatorResults := allResults.filter (fun r => r.index_id = creatorIndexId)
  let clientHasMore :=
    decide (allResults.length ≥ 24) &&
      (decide (brandResults.length = 24) || decide (creatorResults.length = 24))
  let hasMore :=
    match resp.hasMore with
    | some b => b
    | none => clientHasMore
  { enhancedResults := allResults,
    nextPageTokens := resp.nextPageTokens.getD ⟨none, none⟩,
    hasMoreResults := hasMore }

/-- Continuation response for one partition, as consumed by
`loadMoreResults`: `data` models `response.data.data` (absent when the
guard `data && data.data` fails, in which case neither hits nor token are
recorded for that partition) and `next_page_token` models
`data.pageInfo?.next_page_token`. -/
structure ByTokenResponse where
  data : Option (List SearchResult)
  next_page_token : Option String
deriving DecidableEq, Repr

/-- Truthiness test of the stored brand token, deciding whether a brand
continuation request is issued (`if (brandToken)`). -/
def requestedBrand (state : SessionState) : Bool :=
  jsTruthyStr state.nextPageTokens.brand

/-- Truthiness test of the stored creator token, deciding whether a creator
continuation request is issued (`if (creatorToken)`). -/
def requestedCreator (state : SessionState) : Bool :=
  jsTruthyStr state.nextPageTokens.creator

/-- Hits collected into `newResults` by the `responses.forEach` of
`loadMoreResults`: the brand response's hits (when requested and its
`data.data` is present) followed by the creator response's hits. -/
def newRoundResults (state : SessionState)
    (brandResp creatorResp : Option ByTokenResponse) : List SearchResult :=
  (match requestedBrand state, brandResp with
   | true, some r => r.data.getD []
   | _, _ => []) ++
  (match requestedCreator state, creatorResp with
   | true, some r => r.data.getD []
   | _, _ => [])

/-- Token table `newTokens` built by the `responses.forEach` of
`loadMoreResults`: starting from a copy of the current table, each
responding partition whose `data.data` is present gets
`data.pageInfo?.next_page_token || null`. -/
def newRoundTokens (state : SessionState)
    (brandResp creatorResp : Option ByTokenResponse) : TokenTable :=
  let t1 :=
    match requestedBrand state, brandResp with
    | true, some r =>
      match r.data with
      | some _ => { state.nextPageTokens with brand := tokenOrNull r.next_page_token }
      | none => state.nextPageTokens
    | _, _ => state.nextPageTokens
  match requestedCreator state, creatorResp with
  | true, some r =>
    match r.data with
    | some _ => { t1 with creator := tokenOrNull r.next_page_token }
    | none => t1
  | _, _ => t1

/-- Embedding of one `loadMoreResults` round. A request is issued for a
partition iff its stored token is truthy; `brandResp`/`creatorResp` are the
responses for the issued requests (`none` for an issued request models a
failed call, which rejects `Promise.all` and leaves the state unchanged).
The brand response is processed before the creator response, matching the
order the requests are pushed and `Promise.all` preserves. -/
def loadMoreResults (state : SessionState)
    (brandResp creatorResp : Option ByTokenResponse)
    (fetchDetails : String → String → Option VideoDetails) : SessionState :=
  if !state.hasMoreResults then state
  else if !requestedBrand state && !requestedCreator state then
    { state with hasMoreResults := false }
  else if (requestedBrand state && brandResp.isNone) ||
      (requestedCreator state && creatorResp.isNone) then
    state
  else
    let newTokens := newRoundTokens state brandResp creatorResp
    let newResultsWithDetails := fetchVideoDetailsForResults fetchDetails
      (newRoundResults state brandResp creatorResp)
    if newResultsWithDetails.length > 0 then
      { enhancedResults := mergeResults state.enhancedResults newResultsWithDetails,
        nextPageTokens := newTokens,
        hasMoreResults := someTokenNonNull newTokens }
    else
      { state with hasMoreResults := false }

/-- Partition selector of the results view (`activeFilter`). -/
inductive IndexFilter where
  | all
  | brands
  | creators
deriving DecidableEq, Repr

/-- State read by the `filteredResults` memo: the aggregated results, the
partition selector and the format facet selection (`FacetFilter` is exactly
`FormatFilter` in the source). -/
structure ViewState where
  enhancedResults : List SearchResult
  activeFilter : IndexFilter
  activeFilters : List Format
deriving DecidableEq, Repr

/-- Character-level model of `String.prototype.toLowerCase` (the
confidence labels are ASCII, where JS and Unicode simple lower-casing
agree). -/
def jsToLowerCase (s : String) : String :=
  String.mk (s.data.map Char.toLower)

/-- Embedding of `getConfidencePriority` inside the `filteredResults`
sort: high=3, medium=2, low=1, otherwise 0, on the lower-cased string. -/
def getConfidencePriority (confidence : String) : ℕ :=
  let lc := jsToLowerCase confidence
  if lc = "high" then 3
  else if lc = "medium" then 2
  else if lc = "low" then 1
  else 0

/-- Comparator of the `filteredResults` sort as the relation "sorts no
later than": confidence priority descending, then `score || 0`
descending. -/
def confLe (a b : SearchResult) : Bool :=
  if getConfidencePriority a.confidence = getConfidencePriority b.confidence then
    decide (b.score ≤ a.score)
  else
    decide (getConfidencePriority b.confidence < getConfidencePriority a.confidence)

/-- Propositional form of `confLe`. -/
def confRel (a b : SearchResult) : Prop :=
  confLe a b = true

instance : DecidableRel confRel := fun a b =>
  inferInstanceAs (Decidable (confLe a b = true))

instance : IsTotal SearchResult confRel where
  total a b := by
    unfold confRel confLe
    by_cases h : getConfidencePriority a.confidence = getConfidencePriority b.confidence
    · simp only [h, if_pos rfl, if_true]
      rcases le_total a.score b.score with h' | h'
      · exact Or.inr (by simpa using h')
      · exact Or.inl (by simpa using h')
    · simp only [if_neg h, if_neg (Ne.symm h)]
      rcases lt_or_gt_of_ne h with h' | h'
      · exact Or.inr (by simpa using h')
      · exact Or.inl (by simpa using h')

instance : IsTrans SearchResult confRel where
  trans a b c hab hbc := by
    unfold confRel confLe at hab hbc ⊢
    by_cases h1 : getConfidencePriority a.confidence = getConfidencePriority b.confidence
    · by_cases h2 : getConfidencePriority b.confidence = getConfidencePriority c.confidence
      · rw [if_pos h1] at hab
        rw [if_pos h2] at hbc
        rw [if_pos (h1.trans h2)]
        exact decide_eq_true (le_trans (of_decide_eq_true hbc) (of_decide_eq_true hab))
      · rw [if_pos h1] at hab
        rw [if_neg h2] at hbc
        rw [if_neg (fun h => h2 (h1.symm.trans h))]
        have hcb := of_decide_eq_true hbc
        rw [← h1] at hcb
        exact decide_eq_true hcb
    · by_cases h2 : getConfidencePriority b.confidence = getConfidencePriority c.confidence
      · rw [if_neg h1] at hab
        rw [if_neg (fun h => h1 (h.trans h2.symm))]
        have hba := of_decide_eq_true hab
        rw [h2] at hba
        exact decide_eq_true hba
      · rw [if_neg h1] at hab
        rw [if_neg h2] at hbc
        have hca := lt_trans (of_decide_eq_true hbc) (of_decide_eq_true hab)
        rw [if_neg hca.ne']
        exact decide_eq_true hca

/-- Embedding of the `filteredResults` memo, returning both the computed
view (first component) and the `enhancedResults` array as it stands after
the computation (second component). `Array.prototype.sort` sorts in place:
when neither the partition branch nor the format branch reassigned
`results`, the variable still aliases `enhancedResults`, so the sort
reorders the underlying aggregated array itself; whenever some `.filter`
ran, the sort acts on a fresh copy and the underlying array is untouched. -/
def filteredResults (brandIndexId creatorIndexId : String) (s : ViewState) :
    List SearchResult × List SearchResult :=
  let afterIndex :=
    match s.activeFilter with
    | IndexFilter.all => s.enhancedResults
    | IndexFilter.brands => s.enhancedResults.filter (fun r => r.index_id = brandIndexId)
    | IndexFilter.creators => s.enhancedResults.filter (fun r => r.index_id = creatorIndexId)
  let formatFilters := s.activeFilters.filter
    (fun f => f = Format.vertical ∨ f = Format.horizontal)
  let formatApplied := s.activeFilters.length > 0 ∧ formatFilters.length > 0
  let afterFormat :=
    if formatApplied then
      afterIndex.filter (fun result =>
        match result.format with
        | none => false
        | some f => formatFilters.contains f)
    else afterIndex
  let view := List.insertionSort confRel afterFormat
  let mutatedInPlace := s.activeFilter = IndexFilter.all ∧ ¬formatApplied
  (view, if mutatedInPlace then view else s.enhancedResults)

/-! ### Concrete records used in counterexamples and witnesses -/

/-- Concrete hit used in several counterexamples and witnesses, with
identity key `("v1", 10, 20)`. -/
def dupHit : SearchResult := ⟨"v1", 10, 20, "high", 1, "brand", none, none⟩

/-- Concrete low-confidence hit for the `filteredResults` mutation bug. -/
def rLow : SearchResult := ⟨"a", 0, 1, "low", 0, "brand", none, none⟩

/-- Concrete high-confidence hit for the `filteredResults` mutation bug. -/
def rHigh : SearchResult := ⟨"b", 0, 1, "high", 0, "brand", none, none⟩

/-- Scenario-C text result for entity v1 with score 0.8. -/
def tv1 : EmbeddingSearchResult := ⟨0.8, some ⟨some "v1"⟩, none, none, none⟩

/-- Scenario-C video result for entity v1 with score 0.6. -/
def vv1 : EmbeddingSearchResult := ⟨0.6, some ⟨some "v1"⟩, none, none, none⟩

/-- Scenario-C video result for entity v2 with score 1.2. -/
def vv2 : EmbeddingSearchResult := ⟨1.2, some ⟨some "v2"⟩, none, none, none⟩

/-- Duplicate-id video result used in the C1 counterexample. -/
def dupVid : EmbeddingSearchResult := ⟨1, some ⟨some "v1"⟩, none, none, none⟩

/-! ### Helper lemmas about the insertion-ordered map and the two loops -/

/-- Updating an existing key rewrites exactly the entry at that key. -/
theorem find?_update_self (m : List (String × EmbeddingSearchResult))
    (k : String) (v : EmbeddingSearchResult) (hc : m.any (fun p => p.1 = k) = true) :
    (m.map (fun p => if p.1 = k then (k, v) else p)).find? (fun p => p.1 = k)
      = some (k, v) := by
  induction m with
  | nil => simp at hc
  | cons q rest ih =>
    rw [List.map_cons]
    by_cases hq : q.1 = k
    · rw [if_pos hq]
      exact List.find?_cons_of_pos _ (by simp)
    · rw [if_neg hq]
      rw [List.find?_cons_of_neg _ (by simpa using hq)]
      apply ih
      rw [List.any_cons] at hc
      simpa [hq] using hc

/-- Updating key `k` leaves lookups of other keys unchanged. -/
theorem find?_update_ne (m : List (String × EmbeddingSearchResult))
    (k k' : String) (v : EmbeddingSearchResult) (h : k' ≠ k) :
    (m.map (fun p => if p.1 = k then (k, v) else p)).find? (fun p => p.1 = k')
      = m.find? (fun p => p.1 = k') := by
  induction m with
  | nil => rfl
  | cons q rest ih =>
    rw [List.map_cons]
    by_cases hq : q.1 = k
    · rw [if_pos hq]
      rw [List.find?_cons_of_neg _ (by simpa using Ne.symm h)]
      rw [List.find?_cons_of_neg _ (by simp [hq, Ne.symm h])]
      exact ih
    · rw [if_neg hq]
      by_cases hq' : q.1 = k'
      · rw [List.find?_cons_of_pos _ (by simpa using hq'),
            List.find?_cons_of_pos _ (by simpa using hq')]
      · rw [List.find?_cons_of_neg _ (by simpa using hq'),
            List.find?_cons_of_neg _ (by simpa using hq')]
        exact ih

/-- Lookup after `mapSet` at the written key returns the written value. -/
theorem mapGet_mapSet_self (m : List (String × EmbeddingSearchResult))
    (k : String) (v : EmbeddingSearchResult) :
    mapGet (mapSet m k v) k = some v := by
  unfold mapGet mapSet containsKey
  by_cases hc : m.any (fun p => p.1 = k) = true
  · rw [if_pos hc, find?_update_self m k v hc]
    rfl
  · rw [if_neg hc, List.find?_append]
    have hnone : m.find? (fun p => p.1 = k) = none := by
      rw [List.find?_eq_none]
      intro x hx
      rw [Bool.not_eq_true] at hc
      simpa using List.any_eq_false.mp hc x hx
    rw [hnone]
    simp

/-- Lookup after `mapSet` at a different key is unchanged. -/
theorem mapGet_mapSet_ne (m : List (String × EmbeddingSearchResult))
    (k k' : String) (v : EmbeddingSearchResult) (h : k' ≠ k) :
    mapGet (mapSet m k v) k' = mapGet m k' := by
  unfold mapGet mapSet containsKey
  by_cases hc : m.any (fun p => p.1 = k) = true
  · rw [if_pos hc, find?_update_ne m k k' v h]
  · rw [if_neg hc, List.find?_append]
    have hlast : List.find? (fun p => p.1 = k') [(k, v)] = none := by
      simp [Ne.symm h]
    rw [hlast, Option.or_none]

/-- Successful lookup exhibits the association pair in the map. -/
theorem mapGet_mem {m : List (String × EmbeddingSearchResult)}
    {k : String} {e : EmbeddingSearchResult} (h : mapGet m k = some e) :
    (k, e) ∈ m := by
  unfold mapGet at h
  cases hf : m.find? (fun p => p.1 = k) with
  | none => rw [hf] at h; simp at h
  | some q =>
    rw [hf] at h
    have hq2 : q.2 = e := by simpa using h
    have hq1 : q.1 = k := by simpa using List.find?_some hf
    have hmem := List.mem_of_find?_eq_some hf
    have hqe : q = (k, e) := by
      cases q
      simp_all
    rw [← hqe]
    exact hmem

/-- Tagging a text result does not change its (truthy) video id. -/
theorem truthyVideoId_tagText (r : EmbeddingSearchResult) :
    truthyVideoId (tagText r) = truthyVideoId r := rfl

/-- Tagging a video result does not change its (truthy) video id. -/
theorem truthyVideoId_tagVideo (r : EmbeddingSearchResult) :
    truthyVideoId (tagVideo r) = truthyVideoId r := rfl

/-- Merging keeps the existing entry's metadata, hence its video id. -/
theorem truthyVideoId_mergeBoth (e r : EmbeddingSearchResult) :
    truthyVideoId (mergeBoth e r) = truthyVideoId e := rfl

/-- A truthy video id is in particular a present, non-empty id. -/
theorem getVideoId_of_truthy {r : EmbeddingSearchResult} {id : String}
    (h : truthyVideoId r = some id) : getVideoId r = some id ∧ id.isEmpty = false := by
  unfold truthyVideoId at h
  cases hg : getVideoId r with
  | none =>
    simp only [hg] at h
    exact absurd h (by simp)
  | some s =>
    simp only [hg] at h
    by_cases hs : s.isEmpty
    · rw [if_pos hs] at h
      exact absurd h (by simp)
    · rw [if_neg hs] at h
      have hsid : s = id := by simpa using h
      subst hsid
      exact ⟨rfl, by simpa using hs⟩

/-- Closed form of a lookup after the text loop: when the text list has
pairwise-distinct truthy ids, the entry at key `k` is the tagged first
text result with id `k`, or whatever the accumulator held. -/
theorem textFold_get (t : List EmbeddingSearchResult)
    (A : List (String × EmbeddingSearchResult)) (k : String)
    (ht : (t.filterMap truthyVideoId).Nodup) :
    mapGet (t.foldl processTextResult A) k =
      match t.find? (fun r => truthyVideoId r = some k) with
      | some rt => some (tagText rt)
      | none => mapGet A k := by
  induction t generalizing A with
  | nil => rfl
  | cons r rest ih =>
    rw [List.foldl_cons]
    cases hid : truthyVideoId r with
    | none =>
      rw [List.find?_cons_of_neg _ (by simp [hid])]
      have hA : processTextResult A r = A := by
        unfold processTextResult; rw [hid]
      rw [hA]
      exact ih A (by rwa [List.filterMap_cons_none hid] at ht)
    | some id =>
      have hacc : processTextResult A r = mapSet A id (tagText r) := by
        unfold processTextResult; rw [hid]
      rw [List.filterMap_cons_some hid] at ht
      have hni : id ∉ rest.filterMap truthyVideoId := (List.nodup_cons.mp ht).1
      have hrest : (rest.filterMap truthyVideoId).Nodup := (List.nodup_cons.mp ht).2
      rw [hacc, ih _ hrest]
      by_cases hk : k = id
      · subst hk
        rw [List.find?_cons_of_pos _ (by simp [hid])]
        have hfn : rest.find? (fun r' => truthyVideoId r' = some k) = none := by
          rw [List.find?_eq_none]
          intro x hx hcon
          exact hni (List.mem_filterMap.mpr ⟨x, hx, by simpa using hcon⟩)
        simp only [hfn, mapGet_mapSet_self]
      · rw [List.find?_cons_of_neg _ (by simp [hid, Ne.symm hk])]
        cases hf : rest.find? (fun r' => truthyVideoId r' = some k) with
        | some rt => rfl
        | none => exact mapGet_mapSet_ne A id k (tagText r) hk

/-- Closed form of a lookup after the video loop: when the video list has
pairwise-distinct truthy ids, the entry at key `k` is merged with (or set
to) the first video result with id `k`, or left as the accumulator's. -/
theorem videoFold_get (v : List EmbeddingSearchResult)
    (A : List (String × EmbeddingSearchResult)) (k : String)
    (hv : (v.filterMap truthyVideoId).Nodup) :
    mapGet (v.foldl processVideoResult A) k =
      match v.find? (fun r => truthyVideoId r = some k) with
      | some rv => some (match mapGet A k with
          | some e => mergeBoth e rv
          | none => tagVideo rv)
      | none => mapGet A k := by
  induction v generalizing A with
  | nil => rfl
  | cons r rest ih =>
    rw [List.foldl_cons]
    cases hid : truthyVideoId r with
    | none =>
      rw [List.find?_cons_of_neg _ (by simp [hid])]
      have hA : processVideoResult A r = A := by
        unfold processVideoResult; rw [hid]
      rw [hA]
      exact ih A (by rwa [List.filterMap_cons_none hid] at hv)
    | some id =>
      rw [List.filterMap_cons_some hid] at hv
      have hni : id ∉ rest.filterMap truthyVideoId := (List.nodup_cons.mp hv).1
      have hrest : (rest.filterMap truthyVideoId).Nodup := (List.nodup_cons.mp hv).2
      have hfnid : rest.find? (fun r' => truthyVideoId r' = some id) = none := by
        rw [List.find?_eq_none]
        intro x hx hcon
        exact hni (List.mem_filterMap.mpr ⟨x, hx, by simpa using hcon⟩)
      cases hm : mapGet A id with
      | some e =>
        have hacc : processVideoResult A r = mapSet A id (mergeBoth e r) := by
          unfold processVideoResult
          simp only [hid, hm]
        rw [hacc, ih _ hrest]
        by_cases hk : k = id
        · subst hk
          rw [List.find?_cons_of_pos _ (by simp [hid])]
          simp only [hfnid, hm, mapGet_mapSet_self]
        · rw [List.find?_cons_of_neg _ (by simp [hid, Ne.symm hk])]
          simp only [mapGet_mapSet_ne A id k (mergeBoth e r) hk]
      | none =>
        have hacc : processVideoResult A r = mapSet A id (tagVideo r) := by
          unfold processVideoResult
          simp only [hid, hm]
        rw [hacc, ih _ hrest]
        by_cases hk : k = id
        · subst hk
          rw [List.find?_cons_of_pos _ (by simp [hid])]
          simp only [hfnid, hm, mapGet_mapSet_self]
        · rw [List.find?_cons_of_neg _ (by simp [hid, Ne.symm hk])]
          simp only [mapGet_mapSet_ne A id k (tagVideo r) hk]

/-- Under pairwise-distinct truthy ids, searching for a member's id finds
exactly that member. -/
theorem find?_truthy_of_mem_nodup {l : List EmbeddingSearchResult}
    {rt : EmbeddingSearchResult} {id : String}
    (hnd : (l.filterMap truthyVideoId).Nodup) (hmem : rt ∈ l)
    (hid : truthyVideoId rt = some id) :
    l.find? (fun r => truthyVideoId r = some id) = some rt := by
  induction l with
  | nil => exact absurd hmem (List.not_mem_nil rt)
  | cons r rest ih =>
    by_cases hr : truthyVideoId r = some id
    · rw [List.find?_cons_of_pos _ (by simp [hr])]
      rcases List.mem_cons.mp hmem with rfl | hmem'
      · rfl
      · exfalso
        rw [List.filterMap_cons_some hr] at hnd
        exact (List.nodup_cons.mp hnd).1
          (List.mem_filterMap.mpr ⟨rt, hmem', hid⟩)
    · rw [List.find?_cons_of_neg _ (by simp [hr])]
      rcases List.mem_cons.mp hmem with rfl | hmem'
      · exact absurd hid hr
      · refine ih ?_ hmem'
        cases hfr : truthyVideoId r with
        | none => rwa [List.filterMap_cons_none hfr] at hnd
        | some id' =>
          rw [List.filterMap_cons_some hfr] at hnd
          exact hnd.of_cons

/-- Membership after `mapSet` is the written pair or an original entry. -/
theorem mem_mapSet {m : List (String × EmbeddingSearchResult)}
    {k : String} {v : EmbeddingSearchResult} {p : String × EmbeddingSearchResult}
    (h : p ∈ mapSet m k v) : p = (k, v) ∨ p ∈ m := by
  unfold mapSet at h
  by_cases hc : containsKey m k = true
  · rw [if_pos hc] at h
    obtain ⟨q, hq, hqe⟩ := List.mem_map.mp h
    by_cases hqk : q.1 = k
    · left
      rw [← hqe, if_pos hqk]
    · right
      rw [← hqe, if_neg hqk]
      exact hq
  · rw [if_neg hc] at h
    rcases List.mem_append.mp h with h' | h'
    · exact Or.inr h'
    · exact Or.inl (List.mem_singleton.mp h')

/-- Every entry written by the text loop is keyed by its own truthy id. -/
theorem textFold_key_inv (t : List EmbeddingSearchResult)
    (A : List (String × EmbeddingSearchResult))
    (hA : ∀ p ∈ A, truthyVideoId p.2 = some p.1) :
    ∀ p ∈ t.foldl processTextResult A, truthyVideoId p.2 = some p.1 := by
  induction t generalizing A with
  | nil => exact hA
  | cons r rest ih =>
    rw [List.foldl_cons]
    refine ih (processTextResult A r) ?_
    intro p hp
    unfold processTextResult at hp
    cases hid : truthyVideoId r with
    | none => rw [hid] at hp; exact hA p hp
    | some id =>
      simp only [hid] at hp
      rcases mem_mapSet hp with rfl | hp'
      · rw [truthyVideoId_tagText]
        exact hid
      · exact hA p hp'

/-- Every entry written by the video loop is keyed by its own truthy id. -/
theorem videoFold_key_inv (v : List EmbeddingSearchResult)
    (A : List (String × EmbeddingSearchResult))
    (hA : ∀ p ∈ A, truthyVideoId p.2 = some p.1) :
    ∀ p ∈ v.foldl processVideoResult A, truthyVideoId p.2 = some p.1 := by
  induction v generalizing A with
  | nil => exact hA
  | cons r rest ih =>
    rw [List.foldl_cons]
    refine ih (processVideoResult A r) ?_
    intro p hp
    unfold processVideoResult at hp
    cases hid : truthyVideoId r with
    | none => rw [hid] at hp; exact hA p hp
    | some id =>
      simp only [hid] at hp
      cases hm : mapGet A id with
      | some e =>
        simp only [hm] at hp
        rcases mem_mapSet hp with rfl | hp'
        · rw [truthyVideoId_mergeBoth]
          exact hA (id, e) (mapGet_mem hm)
        · exact hA p hp'
      | none =>
        simp only [hm] at hp
        rcases mem_mapSet hp with rfl | hp'
        · rw [truthyVideoId_tagVideo]
          exact hid
        · exact hA p hp'

/-- Every entry of the combiner's map is keyed by its own truthy id. -/
theorem combineMap_key_inv (t v : List EmbeddingSearchResult) :
    ∀ p ∈ combineMap t v, truthyVideoId p.2 = some p.1 := by
  unfold combineMap
  exact videoFold_key_inv v _ (textFold_key_inv t [] (by simp))

/-- Evaluation of `textScore || 0` on a stored text score is the score
itself (also when the score is 0). -/
theorem jsOr_some_zero (q : ℚ) : jsOr (some q) 0 = q := by
  show (if q = 0 then (0 : ℚ) else q) = q
  split_ifs with h
  · exact h.symm
  · rfl

/-! ### Claim theorems -/

/-- C2 — tier classification: a combined entry whose source is `BOTH` is
classified `High` regardless of score; for an entry from a single source
the tier is `High` iff `score >= 1`, `Medium` iff `0.5 <= score < 1`, and
`Low` otherwise. -/
theorem getMatchLevel_spec (score : ℚ) (source : Option OriginSource) :
    (source = some OriginSource.BOTH → getMatchLevel score source = MatchLevel.High) ∧
    (source ≠ some OriginSource.BOTH →
      ((getMatchLevel score source = MatchLevel.High ↔ 1 ≤ score) ∧
       (getMatchLevel score source = MatchLevel.Medium ↔ 0.5 ≤ score ∧ score < 1) ∧
       (getMatchLevel score source = MatchLevel.Low ↔ score < 0.5))) := by
  unfold getMatchLevel
  constructor
  · intro h
    rw [if_pos h]
  · intro h
    rw [if_neg h]
    split_ifs with h1 h2 <;>
      refine ⟨?_, ?_, ?_⟩ <;> constructor <;> intro h' <;>
      first
        | rfl
        | linarith
        | simp_all

/-- Witness for C2 at concrete inputs: a single-source score 2 is `High`
and a `BOTH` entry with score 0.2 is still `High`. -/
theorem getMatchLevel_spec_witness :
    getMatchLevel 2 (some OriginSource.TEXT) = MatchLevel.High ∧
    getMatchLevel 0.2 (some OriginSource.BOTH) = MatchLevel.High :=
  ⟨((getMatchLevel_spec 2 (some OriginSource.TEXT)).2 (by simp)).1.mpr (by norm_num),
   (getMatchLevel_spec 0.2 (some OriginSource.BOTH)).1 rfl⟩

/-- C7 — readiness gate: the similarity searches and the combiner run iff
the embedding readiness check succeeded; on failure the session's match
list is left empty (zero matches, never partial ones), and on success the
match list is exactly the combiner's output. -/
theorem handleFindMatches_readiness_gate (embeddingResult : ReadinessState)
    (textResults videoResults : List EmbeddingSearchResult) :
    ((handleFindMatches embeddingResult textResults videoResults).searchesInvoked
       = embeddingResult.success) ∧
    ((handleFindMatches embeddingResult textResults videoResults).combinerInvoked
       = embeddingResult.success) ∧
    (embeddingResult.success = false →
      (handleFindMatches embeddingResult textResults videoResults).similarResults = []) ∧
    (embeddingResult.success = true →
      (handleFindMatches embeddingResult textResults videoResults).similarResults
        = combineSearchResults textResults videoResults) := by
  unfold handleFindMatches
  cases h : embeddingResult.success <;> simp [h]

/-- Witness for C7: with a failed readiness state the match list stays
empty and no search is invoked. -/
theorem handleFindMatches_readiness_gate_witness :
    (handleFindMatches ⟨3, 5, false⟩ [] []).similarResults = [] ∧
    (handleFindMatches ⟨3, 5, false⟩ [] []).searchesInvoked = false :=
  ⟨(handleFindMatches_readiness_gate ⟨3, 5, false⟩ [] []).2.2.1 rfl,
   (handleFindMatches_readiness_gate ⟨3, 5, false⟩ [] []).1⟩

/-- C4 — merge idempotence: merging the same incoming batch twice equals
merging it once, the identity key for deduplication being
`(video_id, start, end)`. -/
theorem mergeResults_idempotent (S B : List SearchResult) :
    mergeResults (mergeResults S B) B = mergeResults S B := by
  unfold mergeResults
  have hnil : B.filter
      (fun item => !((S ++ B.filter
        (fun item => !((S.map hitKey).contains (hitKey item)))).map hitKey).contains
          (hitKey item)) = [] := by
    rw [List.filter_eq_nil_iff]
    intro a ha
    simp only [Bool.not_eq_true', Bool.not_eq_false]
    rw [List.map_append]
    by_cases hk : (S.map hitKey).contains (hitKey a)
    · exact List.elem_iff.mpr (List.mem_append_left _ (List.elem_iff.mp hk))
    · refine List.elem_iff.mpr (List.mem_append_right _ ?_)
      refine List.mem_map.mpr ⟨a, ?_, rfl⟩
      refine List.mem_filter.mpr ⟨ha, ?_⟩
      simpa using hk
  rw [hnil]
  simp

/-- C5 counterexample — a single incoming batch containing two hits with
the identical identity key `("v1", 10, 20)` is merged into an empty
aggregate with both occurrences kept: the aggregated set then holds two
hits with the same key, refuting "at most one hit for any identity key
... including a single batch that itself contains two hits with the same
key". -/
theorem mergeResults_intra_batch_dup_cex :
    (mergeResults [] [dupHit, dupHit]).countP (fun r => hitKey r = hitKey dupHit) = 2 ∧
    ¬ ((mergeResults [] [dupHit, dupHit]).map hitKey).Nodup := by
  constructor
  · rfl
  · decide

/-- C5 amended — merging an incoming batch whose identity keys are
pairwise distinct into an aggregate with pairwise-distinct keys yields an
aggregate with pairwise-distinct keys; so key uniqueness is preserved
across merge rounds (and two rounds delivering the same key keep a single
hit), but it is not enforced inside a single batch. -/
theorem mergeResults_preserves_key_nodup (prev B : List SearchResult)
    (hprev : (prev.map hitKey).Nodup) (hB : (B.map hitKey).Nodup) :
    ((mergeResults prev B).map hitKey).Nodup := by
  unfold mergeResults
  rw [List.map_append]
  refine List.Nodup.append hprev ?_ ?_
  · exact List.Nodup.sublist (List.Sublist.map hitKey (List.filter_sublist B)) hB
  · rw [List.disjoint_left]
    intro k hk hk'
    obtain ⟨b, hb, rfl⟩ := List.mem_map.mp hk'
    have hfb := (List.mem_filter.mp hb).2
    simp only [Bool.not_eq_true'] at hfb
    exact absurd (List.elem_iff.mpr hk) (by simpa using hfb)

/-- Witness for the amended C5: a second round delivering a hit with the
already-present key `("v1", 10, 20)` (and one fresh hit) leaves the key
list duplicate-free. -/
theorem mergeResults_preserves_key_nodup_witness :
    ((mergeResults [dupHit] [⟨"v1", 10, 20, "low", 2, "creator", none, none⟩,
        ⟨"v2", 0, 5, "high", 1, "brand", none, none⟩]).map hitKey).Nodup ∧
    ([dupHit].map hitKey).Nodup :=
  ⟨mergeResults_preserves_key_nodup _ _ (by decide) (by decide), by decide⟩

/-- C3 counterexample — an initial text-search round whose response
carries `hasMore = false` together with a non-null brand continuation
token leaves the session with `hasMoreResults = false` while a stored
token is non-null: the initial round takes `hasMore` from the server flag
(or a page-count heuristic), not from the token table. -/
theorem handleTextSearch_hasMore_cex :
    (handleTextSearch "brand" "creator"
      ⟨[], some ⟨some "tA1", none⟩, some false⟩).hasMoreResults = false ∧
    (handleTextSearch "brand" "creator"
      ⟨[], some ⟨some "tA1", none⟩, some false⟩).nextPageTokens.brand = some "tA1" :=
  ⟨rfl, rfl⟩

/-- C3 amended — after a continuation round in which every issued request
was answered and at least one hit arrived, the session's `hasMoreResults`
flag equals "some stored continuation token is non-null"; the initial
round (see the counterexample) and a continuation round that returns no
hits do not maintain this equivalence. -/
theorem loadMoreResults_hasMore_iff_token (state : SessionState)
    (brandResp creatorResp : Option ByTokenResponse)
    (fetchDetails : String → String → Option VideoDetails)
    (hActive : state.hasMoreResults = true)
    (hBrand : requestedBrand state = true → brandResp.isSome = true)
    (hCreator : requestedCreator state = true → creatorResp.isSome = true)
    (hNonempty : newRoundResults state brandResp creatorResp ≠ []) :
    (loadMoreResults state brandResp creatorResp fetchDetails).hasMoreResults =
      someTokenNonNull
        ((loadMoreResults state brandResp creatorResp fetchDetails).nextPageTokens) := by
  unfold loadMoreResults
  rw [hActive]
  have hreq : ¬ (!requestedBrand state && !requestedCreator state) = true := by
    intro hcon
    apply hNonempty
    unfold newRoundResults
    rcases Bool.and_eq_true_iff.mp hcon with ⟨h1, h2⟩
    rw [Bool.not_eq_true'] at h1 h2
    rw [h1, h2]
    rfl
  have hresp : ¬ ((requestedBrand state && brandResp.isNone) ||
      (requestedCreator state && creatorResp.isNone)) = true := by
    intro hcon
    rcases Bool.or_eq_true_iff.mp hcon with h | h <;>
      rcases Bool.and_eq_true_iff.mp h with ⟨h1, h2⟩
    · have hb := hBrand h1
      rw [Option.isNone_iff_eq_none] at h2
      rw [h2] at hb
      simp at hb
    · have hc := hCreator h1
      rw [Option.isNone_iff_eq_none] at h2
      rw [h2] at hc
      simp at hc
  simp only [Bool.not_true, Bool.false_eq_true, if_false, hreq, hresp, if_neg]
  have hlen : (fetchVideoDetailsForResults fetchDetails
      (newRoundResults state brandResp creatorResp)).length > 0 := by
    unfold fetchVideoDetailsForResults
    rw [List.length_map]
    exact List.length_pos.mpr hNonempty
  rw [if_pos hlen]

/-- Witness for the amended C3: a continuation round on a brand token
`"tA1"` returning one hit and the fresh token `"tA2"` reports
`hasMoreResults = true` with the new token stored. -/
theorem loadMoreResults_hasMore_iff_token_witness :
    (loadMoreResults
        ⟨[], ⟨some "tA1", none⟩, true⟩
        (some ⟨some [dupHit], some "tA2"⟩) none
        (fun _ _ => none)).hasMoreResults = true ∧
    ((loadMoreResults
        ⟨[], ⟨some "tA1", none⟩, true⟩
        (some ⟨some [dupHit], some "tA2"⟩) none
        (fun _ _ => none)).nextPageTokens).brand = some "tA2" := by
  have h := loadMoreResults_hasMore_iff_token
    ⟨[], ⟨some "tA1", none⟩, true⟩
    (some ⟨some [dupHit], some "tA2"⟩) none
    (fun _ _ => none)
    rfl (fun _ => rfl)
    (fun hcon => absurd hcon (by decide))
    (by decide)
  exact ⟨by rw [h]; rfl, rfl⟩

/-- C8 — computing the filtered view with no partition filter and no
format filter selected runs the display sort in place on the underlying
aggregated array: for the input order `[rLow, rHigh]` the underlying
`enhancedResults` comes out reordered to `[rHigh, rLow]`, contradicting
"the same hits in the same order as before filtering, for every filter
selection". -/
theorem filteredResults_mutates_underlying :
    (filteredResults "brand" "creator"
      ⟨[rLow, rHigh], IndexFilter.all, []⟩).2 = [rHigh, rLow] ∧
    (filteredResults "brand" "creator"
      ⟨[rLow, rHigh], IndexFilter.all, []⟩).2 ≠ [rLow, rHigh] := by
  constructor
  · rfl
  · decide

/-- C9 counterexample — a hit whose details carry the dimensions
`width = 0`, `height = 5` (both present, width < height) gets no format at
all rather than `vertical`: the code's truthiness guard treats a zero
dimension like a missing one. -/
theorem deriveFormat_zero_width_cex :
    deriveFormat ⟨some ⟨some 0, some 5⟩⟩ = none ∧
    deriveFormat ⟨some ⟨some 0, some 5⟩⟩ ≠ some Format.vertical := by
  exact ⟨rfl, by decide⟩

/-- C9 amended — for present non-zero dimensions the format is
`horizontal` iff `width >= height` (tie to horizontal) and `vertical`
otherwise; a hit lacking width, height, or the metadata object has no
format, and a hit without a format never appears in the view when a
non-empty format filter is selected; the three concrete dimension pairs
of the claim derive as stated. -/
theorem deriveFormat_spec :
    (∀ w h : ℚ, w ≠ 0 → h ≠ 0 →
      deriveFormat ⟨some ⟨some w, some h⟩⟩ =
        some (if w ≥ h then Format.horizontal else Format.vertical)) ∧
    (∀ wo ho : Option ℚ, wo = none ∨ ho = none →
      deriveFormat ⟨some ⟨wo, ho⟩⟩ = none) ∧
    deriveFormat ⟨none⟩ = none ∧
    (∀ (brandIndexId creatorIndexId : String) (s : ViewState) (r : SearchResult),
      r.format = none → s.activeFilters ≠ [] →
      r ∉ (filteredResults brandIndexId creatorIndexId s).1) ∧
    deriveFormat ⟨some ⟨some 1920, some 1080⟩⟩ = some Format.horizontal ∧
    deriveFormat ⟨some ⟨some 1080, some 1920⟩⟩ = some Format.vertical ∧
    deriveFormat ⟨some ⟨some 1000, some 1000⟩⟩ = some Format.horizontal := by
  refine ⟨?_, ?_, rfl, ?_, rfl, rfl, rfl⟩
  · intro w h hw hh
    unfold deriveFormat
    simp only [Option.bind]
    rw [if_pos ⟨hw, hh⟩]
    split_ifs with hge <;> rfl
  · intro wo ho hsm
    unfold deriveFormat
    rcases hsm with h | h <;> rw [h] <;> cases wo <;> cases ho <;> rfl
  · intro bId cId s r hfmt hfilters
    unfold filteredResults
    intro hmem
    rw [List.mem_insertionSort] at hmem
    have hff : s.activeFilters.filter
        (fun f => f = Format.vertical ∨ f = Format.horizontal) = s.activeFilters := by
      rw [List.filter_eq_self]
      intro f _
      cases f <;> simp
    rw [hff] at hmem
    have hpos : s.activeFilters.length > 0 := List.length_pos.mpr hfilters
    rw [if_pos ⟨hpos, hpos⟩] at hmem
    have := (List.mem_filter.mp hmem).2
    rw [hfmt] at this
    simp at this

/-- Witness for the amended C9: dimensions `(3, 4)` derive `vertical`, and
a formatless hit is excluded from the view under the format filter
`[vertical]`. -/
theorem deriveFormat_spec_witness :
    deriveFormat ⟨some ⟨some 3, some 4⟩⟩ = some Format.vertical ∧
    (⟨"x", 0, 0, "high", 0, "brand", none, none⟩ : SearchResult) ∉
      (filteredResults "brand" "creator"
        ⟨[⟨"x", 0, 0, "high", 0, "brand", none, none⟩],
         IndexFilter.all, [Format.vertical]⟩).1 :=
  ⟨by simpa using deriveFormat_spec.1 3 4 (by norm_num) (by norm_num),
   deriveFormat_spec.2.2.2.1 "brand" "creator" _ _ rfl (by simp)⟩

/-- C10 — every entry of the combined output carries a present, non-empty
`tl_video_id`; consequently an input result (from either list) whose
metadata lacks a `tl_video_id` never appears in the combined output, and
the output can be smaller than the number of inputs (a single id-less
text result yields an empty output). -/
theorem combineSearchResults_drops_missing_ids :
    (∀ t v : List EmbeddingSearchResult, ∀ e ∈ combineSearchResults t v,
      ∃ id, getVideoId e = some id ∧ id.isEmpty = false) ∧
    (∀ t v : List EmbeddingSearchResult, ∀ r, getVideoId r = none →
      r ∉ combineSearchResults t v) ∧
    combineSearchResults [⟨1, none, none, none, none⟩] [] = [] := by
  have key : ∀ t v : List EmbeddingSearchResult, ∀ e ∈ combineSearchResults t v,
      ∃ id, getVideoId e = some id ∧ id.isEmpty = false := by
    intro t v e he
    rw [combineSearchResults, List.mem_insertionSort] at he
    obtain ⟨p, hp, hpe⟩ := List.mem_map.mp he
    have hinv := combineMap_key_inv t v p hp
    rw [hpe] at hinv
    obtain ⟨hg, hne⟩ := getVideoId_of_truthy hinv
    exact ⟨p.1, hg, hne⟩
  refine ⟨key, ?_, rfl⟩
  intro t v r hr hmem
  obtain ⟨id, hid, _⟩ := key t v r hmem
  rw [hr] at hid
  exact absurd hid (by simp)

/-- Witness for C10: the single tagged entry of a one-element combine has
a present, non-empty id. -/
theorem combineSearchResults_drops_missing_ids_witness :
    ∃ id, getVideoId (tagText ⟨1, some ⟨some "v1"⟩, none, none, none⟩) = some id ∧
      id.isEmpty = false :=
  combineSearchResults_drops_missing_ids.1
    [⟨1, some ⟨some "v1"⟩, none, none, none⟩] []
    (tagText ⟨1, some ⟨some "v1"⟩, none, none, none⟩) (by decide)

/-- C1 amended — for input lists in which each truthy `tl_video_id`
occurs at most once per list: an entity returned by both searches appears
in the output with origin `BOTH` and score
`max(textScore, videoScore) * 1.15`; an entity returned only by the text
search appears with origin `TEXT` and its text score unchanged; an entity
returned only by the video search appears with origin `VIDEO` and its
video score unchanged. (Without the at-most-once proviso the claim fails,
see the counterexample: a duplicated video-only id is tagged `BOTH` and
boosted.) -/
theorem combineSearchResults_per_entity (t v : List EmbeddingSearchResult)
    (ht : (t.filterMap truthyVideoId).Nodup)
    (hv : (v.filterMap truthyVideoId).Nodup) :
    (∀ id rt rv, rt ∈ t → truthyVideoId rt = some id →
      rv ∈ v → truthyVideoId rv = some id →
      ∃ e ∈ combineSearchResults t v, getVideoId e = some id ∧
        e.originalSource = some OriginSource.BOTH ∧
        e.score = max rt.score rv.score * 1.15) ∧
    (∀ id rt, rt ∈ t → truthyVideoId rt = some id →
      (∀ rv ∈ v, truthyVideoId rv ≠ some id) →
      ∃ e ∈ combineSearchResults t v, getVideoId e = some id ∧
        e.originalSource = some OriginSource.TEXT ∧ e.score = rt.score) ∧
    (∀ id rv, rv ∈ v → truthyVideoId rv = some id →
      (∀ rt ∈ t, truthyVideoId rt ≠ some id) →
      ∃ e ∈ combineSearchResults t v, getVideoId e = some id ∧
        e.originalSource = some OriginSource.VIDEO ∧ e.score = rv.score) := by
  have hout : ∀ id e, mapGet (combineMap t v) id = some e →
      e ∈ combineSearchResults t v := by
    intro id e hget
    rw [combineSearchResults, List.mem_insertionSort]
    exact List.mem_map.mpr ⟨(id, e), mapGet_mem hget, rfl⟩
  refine ⟨?_, ?_, ?_⟩
  · intro id rt rv hrt hidt hrv hidv
    have hft := find?_truthy_of_mem_nodup ht hrt hidt
    have hfv := find?_truthy_of_mem_nodup hv hrv hidv
    have hget : mapGet (combineMap t v) id = some (mergeBoth (tagText rt) rv) := by
      unfold combineMap
      rw [videoFold_get v _ id hv]
      simp only [hfv, textFold_get t [] id ht, hft]
    refine ⟨mergeBoth (tagText rt) rv, hout id _ hget, ?_, rfl, ?_⟩
    · exact (getVideoId_of_truthy hidt).1
    · show (mergeBoth (tagText rt) rv).score = max rt.score rv.score * 1.15
      unfold mergeBoth
      simp only [tagText, jsOr_some_zero]
  · intro id rt hrt hidt hno
    have hft := find?_truthy_of_mem_nodup ht hrt hidt
    have hfvn : v.find? (fun r => truthyVideoId r = some id) = none := by
      rw [List.find?_eq_none]
      intro x hx hcon
      exact hno x hx (by simpa using hcon)
    have hget : mapGet (combineMap t v) id = some (tagText rt) := by
      unfold combineMap
      rw [videoFold_get v _ id hv]
      simp only [hfvn, textFold_get t [] id ht, hft]
    exact ⟨tagText rt, hout id _ hget, (getVideoId_of_truthy hidt).1, rfl, rfl⟩
  · intro id rv hrv hidv hno
    have hfv := find?_truthy_of_mem_nodup hv hrv hidv
    have hftn : t.find? (fun r => truthyVideoId r = some id) = none := by
      rw [List.find?_eq_none]
      intro x hx hcon
      exact hno x hx (by simpa using hcon)
    have hget : mapGet (combineMap t v) id = some (tagVideo rv) := by
      unfold combineMap
      rw [videoFold_get v _ id hv]
      simp only [hfv, textFold_get t [] id ht, hftn]
      rfl
    exact ⟨tagVideo rv, hout id _ hget, (getVideoId_of_truthy hidv).1, rfl, rfl⟩

/-- Witness for the amended C1 at scenario C: entity v1, present in both
lists with scores 0.8 and 0.6, comes out with origin `BOTH` and score
`max(0.8, 0.6) * 1.15`. -/
theorem combineSearchResults_per_entity_witness :
    ∃ e ∈ combineSearchResults [tv1] [vv1, vv2], getVideoId e = some "v1" ∧
      e.originalSource = some OriginSource.BOTH ∧
      e.score = max tv1.score vv1.score * 1.15 :=
  (combineSearchResults_per_entity [tv1] [vv1, vv2]
      (by decide) (by decide)).1 "v1" tv1 vv1
    (by simp) rfl (by simp) rfl

/-- C1 counterexample — with `textResults = []` and the same video result
(id "v1", score 1) listed twice, the entity appears in only one input
list, yet the combined output tags it `BOTH` with the boosted score
`1.15` instead of keeping its single available score `1` unchanged. -/
theorem combineSearchResults_dup_video_cex :
    (combineSearchResults [] [dupVid, dupVid]).map
      (fun e => (e.originalSource, e.score)) = [(some OriginSource.BOTH, 1.15)] ∧
    dupVid.score = 1 := by
  constructor
  · norm_num [combineSearchResults, combineMap, processTextResult, processVideoResult,
      truthyVideoId, getVideoId, mapSet, mapGet, containsKey, tagText, tagVideo,
      mergeBoth, jsOr, List.insertionSort, List.orderedInsert, dupVid, String.isEmpty]
  · rfl

/-- C6 — the combined output is always sorted by the comparator relation
(match-level priority descending, then combined score descending) and is
a permutation of the combiner map's values; on scenario C
(`textResults = [v1:0.8]`, `videoResults = [v1:0.6, v2:1.2]`) the output
is exactly `[v2, v1]` with v2 = (VIDEO, 1.2) and v1 = (BOTH, 0.92), both
of tier High. -/
theorem combineSearchResults_sorted_and_scenario :
    (∀ t v : List EmbeddingSearchResult,
      List.Sorted matchRel (combineSearchResults t v) ∧
      (combineSearchResults t v).Perm ((combineMap t v).map Prod.snd)) ∧
    combineSearchResults [tv1] [vv1, vv2] =
      [⟨1.2, some ⟨some "v2"⟩, none, some 1.2, some OriginSource.VIDEO⟩,
       ⟨0.92, some ⟨some "v1"⟩, some 0.8, some 0.6, some OriginSource.BOTH⟩] ∧
    getMatchLevel 0.92 (some OriginSource.BOTH) = MatchLevel.High ∧
    getMatchLevel 1.2 (some OriginSource.VIDEO) = MatchLevel.High := by
  refine ⟨fun t v => ⟨List.sorted_insertionSort matchRel _,
    List.perm_insertionSort matchRel _⟩, ?_, rfl, ?_⟩
  · norm_num [combineSearchResults, combineMap, processTextResult, processVideoResult,
      truthyVideoId, getVideoId, mapSet, mapGet, containsKey, tagText, tagVideo,
      mergeBoth, jsOr, List.insertionSort, List.orderedInsert, matchRel, matchLe,
      getMatchLevel, getMatchLevelPriority, tv1, vv1, vv2, String.isEmpty]
  · norm_num [getMatchLevel]
